import Mathlib

/-!
# Verification of the burndown-app task tree and burndown projector

Shallow embedding of the core of the `burndown-app` repository:

* the hierarchical task model (`TaskNode`, a forest of tasks with unbounded
  nesting) from `src/components/BurndownApp.tsx`;
* the recursive tree operations `addTask`/`addChild`, `updateCompletedDay`,
  `updateDueDay`, `updateEstimate`, `deleteTask`;
* the burndown projector `buildBurndownData` together with the
  leaf-flattening helper `flattenChildTasks`;
* the "today tasks" filtering (`getViewTasks` / `filteredTasks`) from the
  three-mode variant of the today-tasks component;
* the localStorage snapshot loading path (`JSON.parse` + `initTask`).

Modelling conventions:

* A JavaScript `Date` is modelled as its epoch value in milliseconds, an
  `Int` (`JSDate`).  `setHours(0,0,0,0)` (day truncation) is modelled as
  flooring to a multiple of `msPerDay`; the model works in a fixed UTC-like
  time zone, which does not affect the structure of any statement.
* JavaScript `number` arithmetic in the projector is modelled by `JNum`,
  rationals extended with `NaN` and the two infinities, with the IEEE-754
  special-value rules for the operations the projector uses (division by
  zero, `Infinity * 0 = NaN`, `Math.max` with a `NaN` argument, `Math.round`
  of non-finite values).  Finite arithmetic is modelled exactly over `ℚ`;
  none of the verified statements depends on binary rounding of finite
  values.
* Task ids are natural numbers; `Date.now()` is modelled by a session clock
  (see `Store`), reflecting the spec's assumption that the time-based id
  generator is monotonic and hence produces fresh ids within a session.
-/



/-- A JavaScript `Date`, modelled as epoch milliseconds. -/
abbrev JSDate := Int

/-- Milliseconds per day. -/
def msPerDay : Int := 86400000

/-- `d.setHours(0,0,0,0)`: truncate a date to the start of its day
(floor to a multiple of `msPerDay`). -/
def dayStart (t : JSDate) : JSDate := t - t.emod msPerDay

/-- The task-tree node from `BurndownApp.tsx`:
`{ id, name, estimate, parentId, children, completedOnDay, dueOnDay }`.
`children` is always present (every constructor site in the source supplies
it); a leaf is a node with empty `children`.  The optional dates merge the
`null`/`undefined` cases of the source into `Option`. -/
inductive TaskNode where
  | mk : Nat → String → ℚ → Option Nat → List TaskNode → Option JSDate → Option JSDate → TaskNode

def TaskNode.id : TaskNode → Nat
  | .mk i _ _ _ _ _ _ => i

def TaskNode.name : TaskNode → String
  | .mk _ n _ _ _ _ _ => n

def TaskNode.estimate : TaskNode → ℚ
  | .mk _ _ e _ _ _ _ => e

def TaskNode.parentId : TaskNode → Option Nat
  | .mk _ _ _ p _ _ _ => p

def TaskNode.children : TaskNode → List TaskNode
  | .mk _ _ _ _ cs _ _ => cs

def TaskNode.completedOnDay : TaskNode → Option JSDate
  | .mk _ _ _ _ _ c _ => c

def TaskNode.dueOnDay : TaskNode → Option JSDate
  | .mk _ _ _ _ _ _ d => d

/-- JavaScript `number` values reachable in the projector: a finite value
(modelled exactly as a rational) or one of the IEEE-754 special values. -/
inductive JNum where
  | fin (q : ℚ)
  | nan
  | inf
  | ninf
deriving DecidableEq

namespace JNum

/-- JS subtraction `a - b` on `JNum`. -/
def sub : JNum → JNum → JNum
  | fin a, fin b => fin (a - b)
  | nan, _ => nan
  | _, nan => nan
  | fin _, inf => ninf
  | fin _, ninf => inf
  | inf, fin _ => inf
  | ninf, fin _ => ninf
  | inf, inf => nan
  | inf, ninf => inf
  | ninf, inf => ninf
  | ninf, ninf => nan

/-- JS multiplication `a * b` on `JNum` (`Infinity * 0 = NaN`). -/
def mul : JNum → JNum → JNum
  | fin a, fin b => fin (a * b)
  | nan, _ => nan
  | _, nan => nan
  | inf, fin b => if b = 0 then nan else if 0 < b then inf else ninf
  | ninf, fin b => if b = 0 then nan else if 0 < b then ninf else inf
  | fin a, inf => if a = 0 then nan else if 0 < a then inf else ninf
  | fin a, ninf => if a = 0 then nan else if 0 < a then ninf else inf
  | inf, inf => inf
  | inf, ninf => ninf
  | ninf, inf => ninf
  | ninf, ninf => inf

/-- JS division `a / b` on `JNum` (`x / 0` is `NaN` for `x = 0`, otherwise a
signed infinity). -/
def div : JNum → JNum → JNum
  | fin a, fin b =>
      if b = 0 then (if a = 0 then nan else if 0 < a then inf else ninf)
      else fin (a / b)
  | nan, _ => nan
  | _, nan => nan
  | fin _, inf => fin 0
  | fin _, ninf => fin 0
  | inf, fin b => if 0 ≤ b then inf else ninf
  | ninf, fin b => if 0 ≤ b then ninf else inf
  | inf, inf => nan
  | inf, ninf => nan
  | ninf, inf => nan
  | ninf, ninf => nan

/-- JS `Math.max(a, b)` (`NaN` if either argument is `NaN`). -/
def max : JNum → JNum → JNum
  | nan, _ => nan
  | _, nan => nan
  | fin a, fin b => fin (if a ≤ b then b else a)
  | inf, _ => inf
  | _, inf => inf
  | ninf, x => x
  | x, ninf => x

/-- JS `Math.round` of a finite value: rounds half toward `+∞`. -/
def roundQ (q : ℚ) : ℤ := ⌊q + 1 / 2⌋

/-- JS `Math.round` on `JNum`. -/
def jround : JNum → JNum
  | fin q => fin (roundQ q)
  | nan => nan
  | inf => inf
  | ninf => ninf

/-- `Math.round(x * 100) / 100`: round to 2 decimal places,
as applied to every series value in `buildBurndownData`. -/
def round2 (x : JNum) : JNum := div (jround (mul x (fin 100))) (fin 100)

/-- The JS comparison `a <= b` on `JNum` (false whenever `NaN` is involved). -/
def jle : JNum → JNum → Bool
  | fin a, fin b => decide (a ≤ b)
  | nan, _ => false
  | _, nan => false
  | _, inf => true
  | inf, _ => false
  | ninf, _ => true
  | _, ninf => false

/-- A `JNum` is finite when it is a `fin`. -/
def isFinite : JNum → Bool
  | fin _ => true
  | _ => false

end JNum

/-- One chart datum produced by `buildBurndownData`
(`{ day, ideal, actual, due }`); `day` is the axis date. -/
structure ChartPoint where
  day : JSDate
  ideal : JNum
  actual : JNum
  due : JNum
deriving DecidableEq

/-- `tasks.reduce((s, t) => s + t.estimate, 0)`. -/
def estimateFold (tasks : List TaskNode) : ℚ :=
  tasks.foldl (fun s t => s + t.estimate) 0

/-- `totalEstimate` from `buildBurndownData`. -/
def totalEstimate (tasks : List TaskNode) : ℚ := estimateFold tasks

/-- The filter used for `completedSum`: `completedOnDay` is set and
`completedOnDay <= dateStr` (raw `Date` comparison, i.e. epoch order). -/
def completedLeFilter (dateStr : JSDate) (t : TaskNode) : Bool :=
  match t.completedOnDay with
  | some c => decide (c ≤ dateStr)
  | none => false

/-- The filter used for `dueSum`: `dueOnDay` is set and
`dueOnDay <= dateStr` (raw `Date` comparison). -/
def dueLeFilter (dateStr : JSDate) (t : TaskNode) : Bool :=
  match t.dueOnDay with
  | some c => decide (c ≤ dateStr)
  | none => false

/-- `completedSum` at one axis date: estimates of the tasks completed on or
before `dateStr` in raw epoch order, as in `buildBurndownData`. -/
def completedSum (tasks : List TaskNode) (dateStr : JSDate) : ℚ :=
  estimateFold (tasks.filter (completedLeFilter dateStr))

/-- `dueSum` at one axis date. -/
def dueSum (tasks : List TaskNode) (dateStr : JSDate) : ℚ :=
  estimateFold (tasks.filter (dueLeFilter dateStr))

/-- The body of the `for` loop of `buildBurndownData` at loop index `d` and
axis date `dateStr`. -/
def chartPointAt (total : ℚ) (idealPerDay : JNum) (tasks : List TaskNode)
    (d : Nat) (dateStr : JSDate) : ChartPoint :=
  let remaining := JNum.max (JNum.sub (.fin total) (.fin (completedSum tasks dateStr))) (.fin 0)
  let idealRemaining := JNum.max (JNum.sub (.fin total) (JNum.mul idealPerDay (.fin (d : ℚ)))) (.fin 0)
  let dueRemaining := JNum.max (JNum.sub (.fin total) (.fin (dueSum tasks dateStr))) (.fin 0)
  ⟨dateStr, JNum.round2 idealRemaining, JNum.round2 remaining, JNum.round2 dueRemaining⟩

/-- The `for` loop of `buildBurndownData`, carrying the loop index. -/
def buildPoints (total : ℚ) (idealPerDay : JNum) (tasks : List TaskNode)
    (d : Nat) : List JSDate → List ChartPoint
  | [] => []
  | dateStr :: rest =>
      chartPointAt total idealPerDay tasks d dateStr ::
        buildPoints total idealPerDay tasks (d + 1) rest

/-- `buildBurndownData(sprintDates, tasks)` from `BurndownApp.tsx`.  The axis
is the list of parsed axis dates (`new Date(sprintDates[d])` applied to the
`"YYYY-MM-DD"` strings).  `idealPerDay = totalEstimate / (sprintDates.length - 1)`
is JS division, hence non-finite when the axis has fewer than two dates. -/
def buildBurndownData (sprintDates : List JSDate) (tasks : List TaskNode) : List ChartPoint :=
  let total := totalEstimate tasks
  let idealPerDay := JNum.div (.fin total) (.fin ((sprintDates.length : ℚ) - 1))
  buildPoints total idealPerDay tasks 0 sprintDates

/-- The `children` of a node are structurally smaller than the node,
enabling recursion over the nested tree. -/
theorem TaskNode.sizeOf_children_lt (t : TaskNode) : sizeOf t.children < sizeOf t := by
  cases t with
  | mk i n e p cs c d => simp [TaskNode.children]; omega

/-- `flattenChildTasks`: flatten a forest to its leaves, in depth-first
order; a node with non-empty `children` contributes only its descendants. -/
def flattenChildTasks : List TaskNode → List TaskNode
  | [] => []
  | t :: ts =>
      (if t.children.length > 0 then flattenChildTasks t.children else [t]) ++
        flattenChildTasks ts
termination_by ts => sizeOf ts
decreasing_by
  all_goals have h2 := TaskNode.sizeOf_children_lt t
  all_goals simp only [List.cons.sizeOf_spec] at *
  all_goals omega

/-- Patch a task's `completedOnDay` (`{ ...t, completedOnDay: day }`). -/
def setCompleted (day : Option JSDate) : TaskNode → TaskNode
  | .mk i n e p cs _ d => .mk i n e p cs day d

/-- Patch a task's `dueOnDay` (`{ ...t, dueOnDay: day }`). -/
def setDue (day : Option JSDate) : TaskNode → TaskNode
  | .mk i n e p cs c _ => .mk i n e p cs c day

/-- Patch a task's `estimate` (`{ ...t, estimate }`). -/
def setEstimate (est : ℚ) : TaskNode → TaskNode
  | .mk i n _ p cs c d => .mk i n est p cs c d

/-- The recursive `updateTask` helper shared (textually repeated) by
`updateCompletedDay`, `updateDueDay` and `updateEstimate` in the source:
patch the node whose `id` matches, otherwise recurse into non-empty
`children`, leaving leaves untouched. -/
def updF (taskId : Nat) (patch : TaskNode → TaskNode) : List TaskNode → List TaskNode
  | [] => []
  | TaskNode.mk i n e p cs c d :: ts =>
      (if i = taskId then patch (TaskNode.mk i n e p cs c d)
       else if cs.length > 0 then TaskNode.mk i n e p (updF taskId patch cs) c d
       else TaskNode.mk i n e p cs c d) :: updF taskId patch ts
termination_by ts => sizeOf ts
decreasing_by all_goals (simp; try omega)

/-- `updateCompletedDay(taskId, day)` applied to a forest. -/
def updateCompletedDay (taskId : Nat) (day : Option JSDate) (ts : List TaskNode) : List TaskNode :=
  updF taskId (setCompleted day) ts

/-- `updateDueDay(taskId, day)` applied to a forest. -/
def updateDueDay (taskId : Nat) (day : Option JSDate) (ts : List TaskNode) : List TaskNode :=
  updF taskId (setDue day) ts

/-- `updateEstimate(taskId, estimate)` applied to a forest. -/
def updateEstimate (taskId : Nat) (est : ℚ) (ts : List TaskNode) : List TaskNode :=
  updF taskId (setEstimate est) ts

/-- The recursive `removeTask` helper of `deleteTask`: filter out the node
with the given id at every level (dropping its whole subtree), recursing
into the `children` of the survivors. -/
def removeTask (taskId : Nat) : List TaskNode → List TaskNode
  | [] => []
  | TaskNode.mk i n e p cs c d :: ts =>
      if i = taskId then removeTask taskId ts
      else
        (if cs.length > 0 then TaskNode.mk i n e p (removeTask taskId cs) c d
         else TaskNode.mk i n e p cs c d) :: removeTask taskId ts
termination_by ts => sizeOf ts
decreasing_by all_goals (simp; try omega)

/-- `deleteTask(taskId)` applied to a forest. -/
def deleteTask (taskId : Nat) (ts : List TaskNode) : List TaskNode :=
  removeTask taskId ts

/-- The recursive `addChild` helper of `addTask`: append `newTask` to the
`children` of every node whose id is `parentId`, recursing into non-empty
`children` elsewhere. -/
def addChild (parentId : Nat) (newTask : TaskNode) : List TaskNode → List TaskNode
  | [] => []
  | TaskNode.mk i n e p cs c d :: ts =>
      (if i = parentId then TaskNode.mk i n e p (cs ++ [newTask]) c d
       else if cs.length > 0 then TaskNode.mk i n e p (addChild parentId newTask cs) c d
       else TaskNode.mk i n e p cs c d) :: addChild parentId newTask ts
termination_by ts => sizeOf ts
decreasing_by all_goals (simp; try omega)

/-- JS truthiness of the `newParentId : number | null` value, as tested by
`if (newParentId)`: `null` and `0` are falsy. -/
def jsTruthyId : Option Nat → Bool
  | none => false
  | some p => p != 0

/-- The insertion step of `addTask`: `addChild` into the parent when
`newParentId` is truthy, otherwise append the new task to the root
sequence (`[...prev, newTask]`). -/
def insertChild (parentId : Option Nat) (newTask : TaskNode) (ts : List TaskNode) : List TaskNode :=
  if jsTruthyId parentId then addChild (parentId.getD 0) newTask ts
  else ts ++ [newTask]

/-- `addTask` from `BurndownApp.tsx`/`taskList.tsx`: reject when the name is
empty (`if (!newName) return`) or the due date is absent
(`if (!newDueDate) return`); otherwise build the new task
(`id: Date.now(), children: [], completedOnDay: null, dueOnDay: newDueDate`)
and insert it.  `newId` stands for the `Date.now()` id. -/
def addTask (newId : Nat) (newName : String) (newEstimate : ℚ)
    (newParentId : Option Nat) (newDueDate : Option JSDate)
    (ts : List TaskNode) : List TaskNode :=
  if newName = "" then ts
  else
    match newDueDate with
    | none => ts
    | some _ =>
        insertChild newParentId
          (TaskNode.mk newId newName newEstimate newParentId [] none newDueDate) ts

/-- Does any node of the forest (at any depth) carry this id? -/
def hasIdF (taskId : Nat) : List TaskNode → Bool
  | [] => false
  | TaskNode.mk i _ _ _ cs _ _ :: ts =>
      i == taskId || hasIdF taskId cs || hasIdF taskId ts
termination_by ts => sizeOf ts
decreasing_by all_goals (simp; try omega)

/-- The ids of all nodes of the forest, in depth-first order. -/
def allIdsF : List TaskNode → List Nat
  | [] => []
  | TaskNode.mk i _ _ _ cs _ _ :: ts => (i :: allIdsF cs) ++ allIdsF ts
termination_by ts => sizeOf ts
decreasing_by all_goals (simp; try omega)

/-- No node of the forest is its own strict ancestor: no node's id occurs
among the ids of its descendants. -/
def noSelfAncestorF : List TaskNode → Bool
  | [] => true
  | TaskNode.mk i _ _ _ cs _ _ :: ts =>
      !((allIdsF cs).contains i) && noSelfAncestorF cs && noSelfAncestorF ts
termination_by ts => sizeOf ts
decreasing_by all_goals (simp; try omega)

/-- The edit commands the UI issues against the task store. -/
inductive Cmd where
  | add (name : String) (estimate : ℚ) (parentId : Option Nat) (due : Option JSDate)
  | updCompleted (taskId : Nat) (day : Option JSDate)
  | updDue (taskId : Nat) (day : Option JSDate)
  | updEstimate (taskId : Nat) (est : ℚ)
  | del (taskId : Nat)

/-- The task store: the current forest plus the session clock standing for
`Date.now()`.  Per the spec, the time-based id generator is monotonic within
a session, so each successful add consumes the clock value as the fresh id
and the clock strictly increases. -/
structure Store where
  tasks : List TaskNode
  clock : Nat

/-- Execute one command against the store. -/
def execCmd (s : Store) : Cmd → Store
  | .add nm est pid due =>
      if nm = "" then s
      else
        match due with
        | none => s
        | some d =>
            ⟨insertChild pid (TaskNode.mk s.clock nm est pid [] none (some d)) s.tasks,
             s.clock + 1⟩
  | .updCompleted i day => ⟨updateCompletedDay i day s.tasks, s.clock⟩
  | .updDue i day => ⟨updateDueDay i day s.tasks, s.clock⟩
  | .updEstimate i est => ⟨updateEstimate i est s.tasks, s.clock⟩
  | .del i => ⟨deleteTask i s.tasks, s.clock⟩

/-- Execute a sequence of commands against the store. -/
def execCmds (s : Store) (cmds : List Cmd) : Store :=
  cmds.foldl execCmd s

/-- `getViewTasks` from the three-mode today-tasks component: collect, in
depth-first order, the leaves that have a due date set. -/
def getViewTasks : List TaskNode → List TaskNode
  | [] => []
  | t :: ts =>
      (if t.children.length == 0 && t.dueOnDay.isSome then [t] else []) ++
        (if t.children.length > 0 then getViewTasks t.children else []) ++
        getViewTasks ts
termination_by ts => sizeOf ts
decreasing_by
  all_goals have h2 := TaskNode.sizeOf_children_lt t
  all_goals simp only [List.cons.sizeOf_spec] at *
  all_goals omega

/-- The display mode of the today-tasks side panel. -/
inductive FilterMode where
  | today
  | untilToday
  | fromToday
deriving DecidableEq

/-- The filter callback of `filteredTasks`: `today0` is the current day
start (`today.setHours(0,0,0,0)`), `taskDate` the day start of the task's
due date (computed on a defensive copy).  A task is shown when the mode is
`untilToday` and it is due strictly before today and incomplete, or it is
due exactly today (any mode, regardless of completion), or the mode is
`fromToday` and it is due strictly after today and incomplete. -/
def viewFlg (mode : FilterMode) (today0 : JSDate) (t : TaskNode) : Bool :=
  match t.dueOnDay with
  | none => false
  | some due =>
      let taskDate := dayStart due
      if mode == FilterMode.untilToday && decide (taskDate < today0)
          && t.completedOnDay.isNone then true
      else if taskDate == today0 then true
      else if mode == FilterMode.fromToday && decide (today0 < taskDate)
          && t.completedOnDay.isNone then true
      else false

/-- `filteredTasks` of the three-mode today-tasks component: the due-dated
leaves of the forest, filtered by `viewFlg` against today's day start
(`now` is the current instant, `new Date()`). -/
def filteredTasks (mode : FilterMode) (now : JSDate) (initTasks : List TaskNode) : List TaskNode :=
  (getViewTasks initTasks).filter (viewFlg mode (dayStart now))

/-- A JSON value, as produced by the platform `JSON.parse`. -/
inductive Json where
  | null
  | bool (b : Bool)
  | num (q : ℚ)
  | str (s : String)
  | arr (items : List Json)
  | obj (fields : List (String × Json))

/-- JSON whitespace. -/
def isJsonWs (c : Char) : Bool :=
  c == ' ' || c == '\t' || c == '\n' || c == '\r'

/-- Skip leading JSON whitespace. -/
def skipWs : List Char → List Char
  | [] => []
  | c :: cs => if isJsonWs c then skipWs cs else c :: cs

/-- Consume an expected literal spelling (e.g. `null`). -/
def dropLit : List Char → List Char → Option (List Char)
  | [], cs => some cs
  | _ :: _, [] => none
  | l :: ls, c :: cs => if c = l then dropLit ls cs else none

/-- Longest digit run at the head of the input. -/
def spanDigits : List Char → List Char × List Char
  | [] => ([], [])
  | c :: cs =>
      if c.isDigit then
        let r := spanDigits cs
        (c :: r.1, r.2)
      else ([], c :: cs)

/-- Decimal digits to a natural number. -/
def natOfDigits (ds : List Char) : Nat :=
  ds.foldl (fun a c => a * 10 + (c.toNat - 48)) 0

/-- Parse a JSON number (integer part, optional fraction, optional
exponent), exactly as a rational. -/
def parseJsonNumber (cs : List Char) : Except String (ℚ × List Char) :=
  let (negSign, cs1) :=
    match cs with
    | '-' :: rest => (true, rest)
    | _ => (false, cs)
  let (ints, cs2) := spanDigits cs1
  if ints.isEmpty then .error "invalid number"
  else
    let (fracDigits, cs3) :=
      match cs2 with
      | '.' :: rest =>
          let r := spanDigits rest
          (r.1, r.2)
      | _ => (([] : List Char), cs2)
    if cs2 ≠ cs3 && fracDigits.isEmpty then .error "invalid number fraction"
    else
      let mantissa : ℚ :=
        (natOfDigits ints : ℚ) + (natOfDigits fracDigits : ℚ) / ((10 : ℚ) ^ fracDigits.length)
      let expRes : Except String (ℤ × List Char) :=
        match cs3 with
        | 'e' :: rest | 'E' :: rest =>
            let (eSign, rest1) :=
              match rest with
              | '+' :: r => (false, r)
              | '-' :: r => (true, r)
              | _ => (false, rest)
            let (eDigits, rest2) := spanDigits rest1
            if eDigits.isEmpty then .error "invalid exponent"
            else .ok (if eSign then -(natOfDigits eDigits : ℤ) else (natOfDigits eDigits : ℤ), rest2)
        | _ => .ok (0, cs3)
      match expRes with
      | .error e => .error e
      | .ok (ex, rest) =>
          let q := mantissa * (10 : ℚ) ^ ex
          .ok (if negSign then -q else q, rest)

/-- Parse the remainder of a JSON string after its opening quote.  The
common escapes are handled; `\uXXXX` escapes are outside the modelled
subset (the snapshots the app writes never contain them). -/
def parseStrChars : Nat → List Char → Except String (List Char × List Char)
  | 0, _ => .error "out of fuel"
  | _ + 1, [] => .error "unterminated string"
  | fuel + 1, c :: rest =>
      if c = '"' then .ok ([], rest)
      else if c = '\\' then
        match rest with
        | [] => .error "bad escape"
        | e :: rest2 =>
            let ec :=
              if e = 'n' then '\n'
              else if e = 't' then '\t'
              else if e = 'r' then '\r'
              else e
            match parseStrChars fuel rest2 with
            | .error msg => .error msg
            | .ok r => .ok (ec :: r.1, r.2)
      else
        match parseStrChars fuel rest with
        | .error msg => .error msg
        | .ok r => .ok (c :: r.1, r.2)

mutual

/-- Parse one JSON value (fuelled recursion; the fuel chosen by `jsonParse`
always suffices, since every step consumes input). -/
def parseJsonValue : Nat → List Char → Except String (Json × List Char)
  | 0, _ => .error "out of fuel"
  | fuel + 1, cs =>
      match skipWs cs with
      | [] => .error "unexpected end of input"
      | c :: rest =>
          if c = 'n' then
            match dropLit ['u', 'l', 'l'] rest with
            | some rest2 => .ok (Json.null, rest2)
            | none => .error "invalid literal"
          else if c = 't' then
            match dropLit ['r', 'u', 'e'] rest with
            | some rest2 => .ok (Json.bool true, rest2)
            | none => .error "invalid literal"
          else if c = 'f' then
            match dropLit ['a', 'l', 's', 'e'] rest with
            | some rest2 => .ok (Json.bool false, rest2)
            | none => .error "invalid literal"
          else if c = '"' then
            match parseStrChars (rest.length + 1) rest with
            | .error e => .error e
            | .ok r => .ok (Json.str (String.mk r.1), r.2)
          else if c = '[' then
            match skipWs rest with
            | ']' :: rest2 => .ok (Json.arr [], rest2)
            | rest2 =>
                match parseArrayItems fuel rest2 with
                | .error e => .error e
                | .ok r => .ok (Json.arr r.1, r.2)
          else if c = '{' then
            match skipWs rest with
            | '}' :: rest2 => .ok (Json.obj [], rest2)
            | rest2 =>
                match parseObjFields fuel rest2 with
                | .error e => .error e
                | .ok r => .ok (Json.obj r.1, r.2)
          else
            match parseJsonNumber (c :: rest) with
            | .error e => .error e
            | .ok r => .ok (Json.num r.1, r.2)

/-- Parse the comma-separated items of a non-empty JSON array, including
the closing bracket. -/
def parseArrayItems : Nat → List Char → Except String (List Json × List Char)
  | 0, _ => .error "out of fuel"
  | fuel + 1, cs =>
      match parseJsonValue fuel cs with
      | .error e => .error e
      | .ok (v, rest) =>
          match skipWs rest with
          | ',' :: rest2 =>
              match parseArrayItems fuel rest2 with
              | .error e => .error e
              | .ok r => .ok (v :: r.1, r.2)
          | ']' :: rest2 => .ok ([v], rest2)
          | _ => .error "expected comma or closing bracket"

/-- Parse the fields of a non-empty JSON object, including the closing
brace. -/
def parseObjFields : Nat → List Char → Except String (List (String × Json) × List Char)
  | 0, _ => .error "out of fuel"
  | fuel + 1, cs =>
      match skipWs cs with
      | '"' :: rest =>
          match parseStrChars (rest.length + 1) rest with
          | .error e => .error e
          | .ok (key, rest1) =>
              match skipWs rest1 with
              | ':' :: rest2 =>
                  match parseJsonValue fuel rest2 with
                  | .error e => .error e
                  | .ok (v, rest3) =>
                      match skipWs rest3 with
                      | ',' :: rest4 =>
                          match parseObjFields fuel rest4 with
                          | .error e => .error e
                          | .ok r => .ok ((String.mk key, v) :: r.1, r.2)
                      | '}' :: rest4 => .ok ([(String.mk key, v)], rest4)
                      | _ => .error "expected comma or closing brace"
              | _ => .error "expected colon"
      | _ => .error "expected object key"

end

/-- The platform `JSON.parse`, on the modelled JSON subset: parse one value
and require only whitespace to remain. -/
def jsonParse (s : String) : Except String Json :=
  match parseJsonValue (2 * s.length + 16) s.toList with
  | .error e => .error e
  | .ok (v, rest) =>
      match skipWs rest with
      | [] => .ok v
      | _ => .error "unexpected trailing input"

/-- Days between a civil date and 1970-01-01 (proleptic Gregorian). -/
def daysFromCivil (y m d : Int) : Int :=
  let y1 := if m ≤ 2 then y - 1 else y
  let era := (if 0 ≤ y1 then y1 else y1 - 399) / 400
  let yoe := y1 - era * 400
  let mp := (m + 9) % 12
  let doy := (153 * mp + 2) / 5 + d - 1
  let doe := yoe * 365 + yoe / 4 - yoe / 100 + doy
  era * 146097 + doe - 719468

/-- `new Date(isoString)` at day granularity: parse a `"YYYY-MM-DD"` date
(optionally followed by a `T...` time part, which the spec's day-granularity
contract discards) to epoch milliseconds. -/
def parseIsoDate (s : String) : Option JSDate :=
  match s.toList with
  | y1 :: y2 :: y3 :: y4 :: '-' :: m1 :: m2 :: '-' :: d1 :: d2 :: rest =>
      if ([y1, y2, y3, y4, m1, m2, d1, d2].all Char.isDigit)
          && (rest.isEmpty || rest.headD ' ' == 'T') then
        some (msPerDay *
          daysFromCivil (natOfDigits [y1, y2, y3, y4]) (natOfDigits [m1, m2])
            (natOfDigits [d1, d2]))
      else none
  | _ => none

/-- Look up an object field. -/
def jsonField (fields : List (String × Json)) (key : String) : Option Json :=
  (fields.find? (fun f => f.1 == key)).map (fun f => f.2)

/-- Look up a required object field. -/
def getField (fields : List (String × Json)) (key : String) : Except String Json :=
  match jsonField fields key with
  | some v => .ok v
  | none => .error ("missing field " ++ key)

/-- Decode a natural-number id. -/
def decodeNatJson : Json → Except String Nat
  | .num q => if q.den = 1 && decide (0 ≤ q.num) then .ok q.num.toNat else .error "not a natural number"
  | _ => .error "expected number"

/-- Decode a JSON string. -/
def decodeStr : Json → Except String String
  | .str s => .ok s
  | _ => .error "expected string"

/-- Decode a JSON number. -/
def decodeNum : Json → Except String ℚ
  | .num q => .ok q
  | _ => .error "expected number"

/-- Decode the nullable `parentId` field. -/
def decodeParent : Option Json → Except String (Option Nat)
  | none => .ok none
  | some .null => .ok none
  | some (.num q) => (decodeNatJson (.num q)).map some
  | some _ => .error "expected id or null"

/-- Decode a nullable serialized date, applying `initTask`'s
`new Date(string)` conversion at day granularity (spec section 6:
dates are deserialized back into day-granularity values). -/
def decodeDate : Option Json → Except String (Option JSDate)
  | none => .ok none
  | some .null => .ok none
  | some (.str s) =>
      match parseIsoDate s with
      | some v => .ok (some v)
      | none => .error "invalid date string"
  | some _ => .error "expected date string or null"

mutual

/-- Decode one task object of the persisted snapshot (the shape the app
itself writes: `initTask`'s field accesses plus the recursive `children`
walk).  A snapshot value outside the expected task shape is a decode
error. -/
def decodeTask : Nat → Json → Except String TaskNode
  | 0, _ => .error "out of fuel"
  | fuel + 1, Json.obj fields => do
      let i ← getField fields "id" >>= decodeNatJson
      let nm ← getField fields "name" >>= decodeStr
      let est ← getField fields "estimate" >>= decodeNum
      let pid ← decodeParent (jsonField fields "parentId")
      let cs ←
        match jsonField fields "children" with
        | none => .ok []
        | some .null => .ok []
        | some (Json.arr xs) => decodeTaskList fuel xs
        | some _ => .error "expected children array"
      let comp ← decodeDate (jsonField fields "completedOnDay")
      let due ← decodeDate (jsonField fields "dueOnDay")
      .ok (TaskNode.mk i nm est pid cs comp due)
  | _ + 1, _ => .error "expected task object"
termination_by fuel _ => (fuel, 0)

/-- Decode a list of task objects (the `for (let task of parsed)` loop,
pushing `initTask(task)` for each element). -/
def decodeTaskList : Nat → List Json → Except String (List TaskNode)
  | _, [] => .ok []
  | fuel, j :: js => do
      let t ← decodeTask fuel j
      let ts ← decodeTaskList fuel js
      .ok (t :: ts)
termination_by fuel js => (fuel, js.length + 1)

end

/-- The localStorage loading effect of `BurndownApp.tsx`:
`localStorage.getItem("tasks")` yields `localData`; when absent the state
keeps its initial empty forest; otherwise `JSON.parse(localData)` runs with
no surrounding `try`/`catch`, so a parse failure propagates out of the
effect (modelled as `Except.error`), and a parsed snapshot is decoded via
`initTask` over each element of the array. -/
def loadTasks (localData : Option String) : Except String (List TaskNode) :=
  match localData with
  | none => .ok []
  | some s =>
      match jsonParse s with
      | .error e => .error e
      | .ok (Json.arr items) => decodeTaskList (2 * s.length + 16) items
      | .ok _ => .error "stored snapshot is not a task array"

mutual

/-- Decidable equality for the nested task type. -/
def TaskNode.decEq : (a b : TaskNode) → Decidable (a = b)
  | .mk i1 n1 e1 p1 cs1 c1 d1, .mk i2 n2 e2 p2 cs2 c2 d2 =>
      letI : Decidable (cs1 = cs2) := TaskNode.decEqList cs1 cs2
      decidable_of_iff (i1 = i2 ∧ n1 = n2 ∧ e1 = e2 ∧ p1 = p2 ∧ cs1 = cs2 ∧ c1 = c2 ∧ d1 = d2)
        (by rw [TaskNode.mk.injEq])
termination_by a _ => sizeOf a

/-- Decidable equality for task lists. -/
def TaskNode.decEqList : (as bs : List TaskNode) → Decidable (as = bs)
  | [], [] => isTrue rfl
  | [], _ :: _ => isFalse (by simp)
  | _ :: _, [] => isFalse (by simp)
  | a :: as, b :: bs =>
      letI : Decidable (a = b) := TaskNode.decEq a b
      letI : Decidable (as = bs) := TaskNode.decEqList as bs
      decidable_of_iff (a = b ∧ as = bs) (by rw [List.cons.injEq])
termination_by as _ => sizeOf as

end

instance : DecidableEq TaskNode := TaskNode.decEq

/-- A concrete two-level demo forest (a parent with id 1 owning a leaf with
id 2). -/
def demoForestC6 : List TaskNode :=
  [TaskNode.mk 1 "p" 1 none [TaskNode.mk 2 "c" 2 (some 1) [] none (some 0)] none none]

/-- Every node carrying the given id has children (the id refers only to
non-leaf, container nodes). -/
def allWithIdNonLeaf (taskId : Nat) : List TaskNode → Bool
  | [] => true
  | TaskNode.mk i _ _ _ cs _ _ :: ts =>
      (!(i == taskId) || decide (cs.length > 0)) && allWithIdNonLeaf taskId cs
        && allWithIdNonLeaf taskId ts
termination_by ts => sizeOf ts
decreasing_by all_goals (simp only [List.cons.sizeOf_spec, TaskNode.mk.sizeOf_spec]; omega)

/-- The claim's "until today" predicate: due on or before today (day
granularity) and incomplete, or due exactly today regardless of
completion. -/
def specUntilToday (now : JSDate) (t : TaskNode) : Bool :=
  match t.dueOnDay with
  | none => false
  | some due =>
      (decide (dayStart due ≤ dayStart now) && t.completedOnDay.isNone)
        || (dayStart due == dayStart now)

/-- The claim's "from today" predicate: due on or after today (day
granularity) and incomplete, or due exactly today regardless of
completion. -/
def specFromToday (now : JSDate) (t : TaskNode) : Bool :=
  match t.dueOnDay with
  | none => false
  | some due =>
      (decide (dayStart now ≤ dayStart due) && t.completedOnDay.isNone)
        || (dayStart due == dayStart now)

/-- The claim's day-granularity completion filter: `completedOnDay` set and
on or before the axis date after discarding time-of-day on both sides. -/
def dayCompletedLeFilter (dateStr : JSDate) (t : TaskNode) : Bool :=
  match t.completedOnDay with
  | some c => decide (dayStart c ≤ dayStart dateStr)
  | none => false

/-- The claim's day-granularity due filter. -/
def dayDueLeFilter (dateStr : JSDate) (t : TaskNode) : Bool :=
  match t.dueOnDay with
  | some c => decide (dayStart c ≤ dayStart dateStr)
  | none => false

/-- `completedSum` as the claim words it: day-granularity comparison. -/
def specCompletedSumDay (tasks : List TaskNode) (dateStr : JSDate) : ℚ :=
  estimateFold (tasks.filter (dayCompletedLeFilter dateStr))

/-- `dueSum` as the claim words it: day-granularity comparison. -/
def specDueSumDay (tasks : List TaskNode) (dateStr : JSDate) : ℚ :=
  estimateFold (tasks.filter (dayDueLeFilter dateStr))

/-- A task completed (and due) one hour after midnight of the epoch day. -/
def demoTaskC5 : TaskNode := TaskNode.mk 1 "a" 1 none [] (some 3600000) (some 3600000)

/-- A task with day-aligned completion and due dates. -/
def demoAlignedC5 : List TaskNode :=
  [TaskNode.mk 1 "a" 2 none [] (some 0) (some msPerDay)]

/-- The id-and-arity skeleton of a forest in depth-first order: the shape of
the tree, the position of every node, and the relative order of siblings. -/
def skelF : List TaskNode → List (Nat × Nat)
  | [] => []
  | TaskNode.mk i _ _ _ cs _ _ :: ts => (i, cs.length) :: (skelF cs ++ skelF ts)
termination_by ts => sizeOf ts
decreasing_by all_goals (simp only [List.cons.sizeOf_spec, TaskNode.mk.sizeOf_spec]; omega)

/-- All nodes of the forest, in depth-first order. -/
def allNodesF : List TaskNode → List TaskNode
  | [] => []
  | TaskNode.mk i n e p cs c d :: ts =>
      TaskNode.mk i n e p cs c d :: (allNodesF cs ++ allNodesF ts)
termination_by ts => sizeOf ts
decreasing_by all_goals (simp only [List.cons.sizeOf_spec, TaskNode.mk.sizeOf_spec]; omega)

/-- Node at an index path (sibling index at each level). -/
def getPath : List TaskNode → List Nat → Option TaskNode
  | _, [] => none
  | ts, i :: p =>
      match ts[i]? with
      | none => none
      | some t =>
          match p with
          | [] => some t
          | _ :: _ => getPath t.children p

/-- The frame relation between an original node and the node at the same
depth-first position after a single-field update: the id is unchanged; a
node with a different id keeps every field except possibly `children`; a
node whose subtree does not contain the target is entirely unchanged. -/
def frameRel (taskId : Nat) (t t' : TaskNode) : Prop :=
  t'.id = t.id ∧
  (t.id ≠ taskId →
    t'.name = t.name ∧ t'.estimate = t.estimate ∧ t'.parentId = t.parentId ∧
    t'.completedOnDay = t.completedOnDay ∧ t'.dueOnDay = t.dueOnDay) ∧
  (hasIdF taskId [t] = false → t' = t)

/-- A two-level demo forest for the C10 counterexample. -/
def demoForestC10 : List TaskNode :=
  [TaskNode.mk 1 "p" 1 none [TaskNode.mk 2 "c" 2 (some 1) [] none none] none none]

/-- The store invariant: depth-first ids are globally unique, and every id
was generated before the current clock value (the time-based generator's
monotonicity). -/
def StoreInv (s : Store) : Prop :=
  (allIdsF s.tasks).Nodup ∧ ∀ x ∈ allIdsF s.tasks, x < s.clock

/-- C3: `addTask` rejects an empty name or an absent due date by returning
the unchanged forest (a plain early return, not an exception), and on valid
input constructs the new task node
(`id` fresh, empty children, `completedOnDay: null`, `dueOnDay` as given)
and inserts it via `insertChild` (append under the parent when a parent id
is given, otherwise append to the root sequence). -/
theorem addTask_validates_and_inserts (newId : Nat) (nm : String) (est : ℚ)
    (pid : Option Nat) (due : Option JSDate) (ts : List TaskNode) :
    ((nm = "" ∨ due = none) → addTask newId nm est pid due ts = ts) ∧
    (nm ≠ "" → ∀ d, due = some d →
      addTask newId nm est pid due ts =
        insertChild pid (TaskNode.mk newId nm est pid [] none (some d)) ts) := by
  constructor
  · rintro (h | h)
    · simp [addTask, h]
    · subst h
      simp [addTask]
  · intro hnm d hd
    subst hd
    simp [addTask, hnm]

/-- Witness for C3 at concrete inputs: the three branches of
`addTask_validates_and_inserts` evaluated. -/
theorem addTask_validates_and_inserts_witness :
    addTask 7 "" 1 none (some 0) [] = [] ∧
    addTask 7 "a" 1 none none [] = [] ∧
    addTask 7 "a" 1 none (some 0) [] = [TaskNode.mk 7 "a" 1 none [] none (some 0)] := by
  refine ⟨(addTask_validates_and_inserts 7 "" 1 none (some 0) []).1 (Or.inl rfl),
    (addTask_validates_and_inserts 7 "a" 1 none none []).1 (Or.inr rfl), ?_⟩
  rw [(addTask_validates_and_inserts 7 "a" 1 none (some 0) []).2 (by decide) 0 rfl]
  rfl

/-- If the target id occurs nowhere, the update recursion rebuilds the
forest unchanged. -/
theorem updF_not_found (taskId : Nat) (patch : TaskNode → TaskNode) :
    (ts : List TaskNode) → hasIdF taskId ts = false → updF taskId patch ts = ts
  | [], _ => by simp [updF]
  | TaskNode.mk i n e p cs c d :: ts, h => by
      simp only [hasIdF, Bool.or_eq_false_iff, beq_eq_false_iff_ne] at h
      obtain ⟨⟨hne, hcs⟩, hts⟩ := h
      have ih1 := updF_not_found taskId patch cs hcs
      have ih2 := updF_not_found taskId patch ts hts
      simp only [updF]
      rw [if_neg hne, ih2]
      by_cases hl : cs.length > 0
      · rw [if_pos hl, ih1]
      · rw [if_neg hl]
termination_by ts => sizeOf ts
decreasing_by all_goals (simp only [List.cons.sizeOf_spec, TaskNode.mk.sizeOf_spec]; omega)

/-- If the target id occurs nowhere, `removeTask` rebuilds the forest
unchanged. -/
theorem removeTask_not_found (taskId : Nat) :
    (ts : List TaskNode) → hasIdF taskId ts = false → removeTask taskId ts = ts
  | [], _ => by simp [removeTask]
  | TaskNode.mk i n e p cs c d :: ts, h => by
      simp only [hasIdF, Bool.or_eq_false_iff, beq_eq_false_iff_ne] at h
      obtain ⟨⟨hne, hcs⟩, hts⟩ := h
      have ih1 := removeTask_not_found taskId cs hcs
      have ih2 := removeTask_not_found taskId ts hts
      simp only [removeTask]
      rw [if_neg hne, ih2]
      by_cases hl : cs.length > 0
      · rw [if_pos hl, ih1]
      · rw [if_neg hl]
termination_by ts => sizeOf ts
decreasing_by all_goals (simp only [List.cons.sizeOf_spec, TaskNode.mk.sizeOf_spec]; omega)

/-- If the parent id occurs nowhere, `addChild` rebuilds the forest
unchanged. -/
theorem addChild_not_found (parentId : Nat) (nt : TaskNode) :
    (ts : List TaskNode) → hasIdF parentId ts = false → addChild parentId nt ts = ts
  | [], _ => by simp [addChild]
  | TaskNode.mk i n e p cs c d :: ts, h => by
      simp only [hasIdF, Bool.or_eq_false_iff, beq_eq_false_iff_ne] at h
      obtain ⟨⟨hne, hcs⟩, hts⟩ := h
      have ih1 := addChild_not_found parentId nt cs hcs
      have ih2 := addChild_not_found parentId nt ts hts
      simp only [addChild]
      rw [if_neg hne, ih2]
      by_cases hl : cs.length > 0
      · rw [if_pos hl, ih1]
      · rw [if_neg hl]
termination_by ts => sizeOf ts
decreasing_by all_goals (simp only [List.cons.sizeOf_spec, TaskNode.mk.sizeOf_spec]; omega)

/-- C6: operations targeting an id that occurs nowhere in the forest are
silent no-ops: the three single-field updates, the delete, and `insertChild`
with a non-null (hence, for a generated id, nonzero) parent id all return
the forest unchanged; all are total functions, so no error is raised. -/
theorem missing_id_is_noop (taskId : Nat) (ts : List TaskNode)
    (h : hasIdF taskId ts = false) (h0 : taskId ≠ 0)
    (day day2 : Option JSDate) (est : ℚ) (nt : TaskNode) :
    updateCompletedDay taskId day ts = ts ∧
    updateDueDay taskId day2 ts = ts ∧
    updateEstimate taskId est ts = ts ∧
    deleteTask taskId ts = ts ∧
    insertChild (some taskId) nt ts = ts := by
  refine ⟨updF_not_found taskId _ ts h, updF_not_found taskId _ ts h,
    updF_not_found taskId _ ts h, removeTask_not_found taskId ts h, ?_⟩
  have ht : jsTruthyId (some taskId) = true := by
    simp [jsTruthyId, h0]
  simp only [insertChild, ht, if_pos, Option.getD_some]
  exact addChild_not_found taskId nt ts h

/-- Witness for C6: a concrete forest with ids 1 and 2, targeted with the
absent id 9. -/
theorem missing_id_is_noop_witness :
    updateCompletedDay 9 (some 0) demoForestC6 = demoForestC6 ∧
    updateDueDay 9 none demoForestC6 = demoForestC6 ∧
    updateEstimate 9 3 demoForestC6 = demoForestC6 ∧
    deleteTask 9 demoForestC6 = demoForestC6 ∧
    insertChild (some 9) (TaskNode.mk 9 "x" 1 none [] none none) demoForestC6 = demoForestC6 :=
  missing_id_is_noop 9 demoForestC6 (by simp [hasIdF, demoForestC6]) (by decide)
    (some 0) none 3 (TaskNode.mk 9 "x" 1 none [] none none)

/-- The update recursion preserves the length of each sibling list. -/
theorem updF_length (taskId : Nat) (patch : TaskNode → TaskNode) :
    (ts : List TaskNode) → (updF taskId patch ts).length = ts.length
  | [] => by simp [updF]
  | TaskNode.mk i n e p cs c d :: ts => by
      simp only [updF, List.length_cons, updF_length taskId patch ts]

/-- Updating a field of nodes that are all non-leaves does not change the
flattened leaf list, for any patch that preserves `children`. -/
theorem flatten_updF_nonleaf (taskId : Nat) (patch : TaskNode → TaskNode)
    (hp : ∀ t, (patch t).children = t.children) :
    (ts : List TaskNode) → allWithIdNonLeaf taskId ts = true →
      flattenChildTasks (updF taskId patch ts) = flattenChildTasks ts
  | [], _ => by simp [updF]
  | TaskNode.mk i n e p cs c d :: ts, h => by
      simp only [allWithIdNonLeaf, Bool.and_eq_true, Bool.or_eq_true,
        Bool.not_eq_true', beq_eq_false_iff_ne, decide_eq_true_eq] at h
      obtain ⟨⟨hh, hcs⟩, hts⟩ := h
      have ih2 := flatten_updF_nonleaf taskId patch hp ts hts
      simp only [updF]
      by_cases hid : i = taskId
      · rw [if_pos hid]
        have hlen : cs.length > 0 := by
          rcases hh with h1 | h1
          · exact absurd hid h1
          · exact h1
        simp only [flattenChildTasks]
        rw [hp (TaskNode.mk i n e p cs c d)]
        simp only [TaskNode.children, ih2, if_pos hlen]
      · rw [if_neg hid]
        have ih1 := flatten_updF_nonleaf taskId patch hp cs hcs
        by_cases hl : cs.length > 0
        · rw [if_pos hl]
          have hlen2 := updF_length taskId patch cs
          simp only [flattenChildTasks, TaskNode.children, hlen2, ih1, ih2, if_pos hl]
        · rw [if_neg hl]
          simp only [flattenChildTasks, TaskNode.children, ih2, if_neg hl]
termination_by ts => sizeOf ts
decreasing_by all_goals (simp only [List.cons.sizeOf_spec, TaskNode.mk.sizeOf_spec]; omega)

/-- C4: when every node carrying the targeted id is a non-leaf, editing that
node's `estimate`, `dueOnDay` or `completedOnDay` leaves the projector's
output (`buildBurndownData` over `flattenChildTasks`) unchanged: non-leaf
nodes' own scheduling and estimate fields never influence any series. -/
theorem nonleaf_fields_no_influence (dates : List JSDate) (ts : List TaskNode)
    (taskId : Nat) (h : allWithIdNonLeaf taskId ts = true)
    (est : ℚ) (day day2 : Option JSDate) :
    buildBurndownData dates (flattenChildTasks (updateEstimate taskId est ts)) =
      buildBurndownData dates (flattenChildTasks ts) ∧
    buildBurndownData dates (flattenChildTasks (updateDueDay taskId day ts)) =
      buildBurndownData dates (flattenChildTasks ts) ∧
    buildBurndownData dates (flattenChildTasks (updateCompletedDay taskId day2 ts)) =
      buildBurndownData dates (flattenChildTasks ts) := by
  refine ⟨congrArg _ (flatten_updF_nonleaf taskId _ (fun t => by cases t; rfl) ts h),
    congrArg _ (flatten_updF_nonleaf taskId _ (fun t => by cases t; rfl) ts h),
    congrArg _ (flatten_updF_nonleaf taskId _ (fun t => by cases t; rfl) ts h)⟩

/-- Witness for C4: editing the non-leaf node 1 of the demo forest does not
change the burndown series. -/
theorem nonleaf_fields_no_influence_witness :
    buildBurndownData [0] (flattenChildTasks (updateEstimate 1 5 demoForestC6)) =
      buildBurndownData [0] (flattenChildTasks demoForestC6) ∧
    buildBurndownData [0] (flattenChildTasks (updateDueDay 1 (some 0) demoForestC6)) =
      buildBurndownData [0] (flattenChildTasks demoForestC6) ∧
    buildBurndownData [0] (flattenChildTasks (updateCompletedDay 1 (some 0) demoForestC6)) =
      buildBurndownData [0] (flattenChildTasks demoForestC6) :=
  nonleaf_fields_no_influence [0] demoForestC6 1
    (by simp [allWithIdNonLeaf, demoForestC6]) 5 (some 0) (some 0)

/-- `getViewTasks` is exactly the leaf list restricted to tasks with a due
date. -/
theorem getViewTasks_eq_filter :
    (ts : List TaskNode) →
      getViewTasks ts = (flattenChildTasks ts).filter (fun t => t.dueOnDay.isSome)
  | [] => by simp [getViewTasks, flattenChildTasks]
  | TaskNode.mk i n e p cs c d :: ts => by
      have ih1 := getViewTasks_eq_filter cs
      have ih2 := getViewTasks_eq_filter ts
      simp only [getViewTasks, flattenChildTasks, TaskNode.children]
      by_cases hl : cs.length > 0
      · have h0 : (cs.length == 0) = false := by
          simp only [beq_eq_false_iff_ne, ne_eq]
          omega
        simp [h0, hl, ih1, ih2]
      · have h0 : cs.length = 0 := by omega
        simp only [h0, if_neg hl]
        cases d <;> simp [ih2, TaskNode.dueOnDay]
termination_by ts => sizeOf ts
decreasing_by all_goals (simp only [List.cons.sizeOf_spec, TaskNode.mk.sizeOf_spec]; omega)

/-- `<` or `=` is the same as `≤` or `=` on dates. -/
theorem int_lt_or_eq_iff (a b : Int) : (a < b ∨ a = b) ↔ (a ≤ b ∨ a = b) := by omega

/-- `=` or `>` is the same as `≥` or `=` on dates. -/
theorem int_eq_or_gt_iff (a b : Int) : (a = b ∨ b < a) ↔ (b ≤ a ∨ a = b) := by omega

/-- C8: the `untilToday` view shows exactly the leaves due on or before
today and incomplete plus the leaves due exactly today (regardless of
completion), and the `fromToday` view shows exactly the leaves due on or
after today and incomplete plus the leaves due exactly today, with all date
comparisons at day granularity. -/
theorem tasksInRange_mode_semantics (now : JSDate) (ts : List TaskNode) :
    filteredTasks FilterMode.untilToday now ts =
      (flattenChildTasks ts).filter (specUntilToday now) ∧
    filteredTasks FilterMode.fromToday now ts =
      (flattenChildTasks ts).filter (specFromToday now) := by
  constructor <;>
  · simp only [filteredTasks, getViewTasks_eq_filter, List.filter_filter]
    refine List.filter_congr ?_
    intro t _
    rw [Bool.eq_iff_iff]
    cases ht : t.dueOnDay with
    | none => simp [viewFlg, specUntilToday, specFromToday, ht]
    | some due =>
        cases hc : t.completedOnDay with
        | none =>
            simp [viewFlg, specUntilToday, specFromToday, ht, hc]
            generalize dayStart due = a
            generalize dayStart now = b
            first
            | exact int_lt_or_eq_iff a b
            | exact int_eq_or_gt_iff a b
        | some cd =>
            simp [viewFlg, specUntilToday, specFromToday, ht, hc]

/-- Rounding to two decimals keeps finite values finite, with an explicit
value. -/
theorem round2_fin_eq (q : ℚ) :
    JNum.round2 (JNum.fin q) = JNum.fin ((JNum.roundQ (q * 100) : ℚ) / 100) := by
  have h100 : (100 : ℚ) ≠ 0 := by norm_num
  simp [JNum.round2, JNum.mul, JNum.jround, JNum.div, h100]

/-- Every point built over a finite per-day rate has three finite series
values. -/
theorem buildPoints_finite (total w : ℚ) (tasks : List TaskNode) :
    ∀ (d : Nat) (ds : List JSDate) pt, pt ∈ buildPoints total (JNum.fin w) tasks d ds →
      pt.ideal.isFinite = true ∧ pt.actual.isFinite = true ∧ pt.due.isFinite = true := by
  intro d ds
  induction ds generalizing d with
  | nil => intro pt hpt; simp [buildPoints] at hpt
  | cons D rest ih =>
      intro pt hpt
      simp only [buildPoints, List.mem_cons] at hpt
      rcases hpt with h | h
      · subst h
        simp [chartPointAt, JNum.mul, JNum.sub, JNum.max, round2_fin_eq, JNum.isFinite]
      · exact ih (d + 1) pt h

/-- C1 (amended): with an axis of at least two dates the divisor
`sprintDates.length - 1` is nonzero, and every produced chart point has
finite `ideal`, `actual` and `due` values (in particular a zero total
estimate also yields defined numeric results there). -/
theorem projector_finite_on_multi_point_axis (dates : List JSDate)
    (tasks : List TaskNode) (h : 2 ≤ dates.length) :
    ∀ pt ∈ buildBurndownData dates tasks,
      pt.ideal.isFinite = true ∧ pt.actual.isFinite = true ∧ pt.due.isFinite = true := by
  have h2 : (2 : ℚ) ≤ (dates.length : ℚ) := by exact_mod_cast h
  have hne : ((dates.length : ℚ) - 1) ≠ 0 := by
    intro hc
    rw [sub_eq_zero] at hc
    rw [hc] at h2
    norm_num at h2
  intro pt hpt
  simp only [buildBurndownData] at hpt
  rw [show JNum.div (JNum.fin (totalEstimate tasks)) (JNum.fin ((dates.length : ℚ) - 1)) =
      JNum.fin (totalEstimate tasks / ((dates.length : ℚ) - 1)) by simp [JNum.div, hne]] at hpt
  exact buildPoints_finite _ _ tasks 0 dates pt hpt

/-- Witness for the amended C1: on a concrete two-date axis with one task,
the first produced chart point has three finite values. -/
theorem projector_finite_on_multi_point_axis_witness :
    (ChartPoint.mk 0 (JNum.fin 10) (JNum.fin 10) (JNum.fin 0)).ideal.isFinite = true ∧
    (ChartPoint.mk 0 (JNum.fin 10) (JNum.fin 10) (JNum.fin 0)).actual.isFinite = true ∧
    (ChartPoint.mk 0 (JNum.fin 10) (JNum.fin 10) (JNum.fin 0)).due.isFinite = true :=
  projector_finite_on_multi_point_axis [0, msPerDay]
    [TaskNode.mk 1 "a" 10 none [] none (some 0)] (by simp)
    (ChartPoint.mk 0 (JNum.fin 10) (JNum.fin 10) (JNum.fin 0))
    (by norm_num [buildBurndownData, buildPoints, chartPointAt, totalEstimate,
      estimateFold, completedSum, dueSum, completedLeFilter, dueLeFilter,
      TaskNode.completedOnDay, TaskNode.dueOnDay, TaskNode.estimate,
      JNum.div, JNum.mul, JNum.sub, JNum.max, JNum.round2, JNum.jround, JNum.roundQ])

/-- C1 counterexample: on a single-date axis the divisor is zero and the
ideal series value is `NaN` — a non-finite value, different from the total
estimate — even with a zero total estimate, contradicting the claim that a
single-point axis is special-cased to a defined finite result. -/
theorem single_point_axis_yields_nan :
    buildBurndownData [0] [] = [⟨0, JNum.nan, JNum.fin 0, JNum.fin 0⟩] ∧
    JNum.isFinite JNum.nan = false ∧ JNum.nan ≠ JNum.fin (totalEstimate []) := by
  refine ⟨?_, rfl, by decide⟩
  norm_num [buildBurndownData, buildPoints, chartPointAt, totalEstimate, estimateFold,
    completedSum, dueSum, JNum.div, JNum.mul, JNum.sub, JNum.max, JNum.round2, JNum.jround,
    JNum.roundQ]

/-- C5 counterexample: the projector compares raw instants, not day-starts.
A task completed one hour into the axis day is excluded from the code's
`completedSum` at that day's axis date, while the day-granularity sum of
the claim includes it; likewise for `dueSum`. -/
theorem raw_comparison_is_not_day_granularity :
    completedSum [demoTaskC5] 0 = 0 ∧ specCompletedSumDay [demoTaskC5] 0 = 1 ∧
    completedSum [demoTaskC5] 0 ≠ specCompletedSumDay [demoTaskC5] 0 ∧
    dueSum [demoTaskC5] 0 ≠ specDueSumDay [demoTaskC5] 0 := by
  have h1 : completedSum [demoTaskC5] 0 = 0 := by
    norm_num [completedSum, completedLeFilter, demoTaskC5, TaskNode.completedOnDay,
      estimateFold]
  have hpc : dayCompletedLeFilter 0 demoTaskC5 = true := by
    norm_num [dayCompletedLeFilter, demoTaskC5, TaskNode.completedOnDay, dayStart, msPerDay]
  have hpd : dayDueLeFilter 0 demoTaskC5 = true := by
    norm_num [dayDueLeFilter, demoTaskC5, TaskNode.dueOnDay, dayStart, msPerDay]
  simp only [demoTaskC5] at hpc hpd
  have h2 : specCompletedSumDay [demoTaskC5] 0 = 1 := by
    simp only [specCompletedSumDay, List.filter_cons, hpc, if_pos, List.filter_nil,
      estimateFold, List.foldl_cons, List.foldl_nil, demoTaskC5, TaskNode.estimate]
    norm_num
  have h3 : dueSum [demoTaskC5] 0 = 0 := by
    norm_num [dueSum, dueLeFilter, demoTaskC5, TaskNode.dueOnDay, estimateFold]
  have h4 : specDueSumDay [demoTaskC5] 0 = 1 := by
    simp only [specDueSumDay, List.filter_cons, hpd, if_pos, List.filter_nil,
      estimateFold, List.foldl_cons, List.foldl_nil, demoTaskC5, TaskNode.estimate]
    norm_num
  refine ⟨h1, h2, ?_, ?_⟩
  · rw [h1, h2]; norm_num
  · rw [h3, h4]; norm_num

/-- C5 (amended): the projector's `completedSum_d`/`dueSum_d` compare the
stored dates with the axis date in raw epoch order; this agrees with the
claim's day-granularity comparison exactly when the stored task dates and
the axis date are already day-aligned (midnight values, as produced by the
date-only dropdowns — but not by the "complete today" checkbox, which
stores `new Date()`). -/
theorem sums_day_granularity_when_aligned (tasks : List TaskNode) (D : JSDate)
    (hD : dayStart D = D)
    (hT : ∀ t ∈ tasks, (∀ c, t.completedOnDay = some c → dayStart c = c) ∧
      (∀ c, t.dueOnDay = some c → dayStart c = c)) :
    completedSum tasks D = specCompletedSumDay tasks D ∧
    dueSum tasks D = specDueSumDay tasks D := by
  constructor
  · unfold completedSum specCompletedSumDay
    congr 1
    refine List.filter_congr ?_
    intro t ht
    unfold completedLeFilter dayCompletedLeFilter
    cases hc : t.completedOnDay with
    | none => rfl
    | some c =>
        show decide (c ≤ D) = decide (dayStart c ≤ dayStart D)
        rw [(hT t ht).1 c hc, hD]
  · unfold dueSum specDueSumDay
    congr 1
    refine List.filter_congr ?_
    intro t ht
    unfold dueLeFilter dayDueLeFilter
    cases hc : t.dueOnDay with
    | none => rfl
    | some c =>
        show decide (c ≤ D) = decide (dayStart c ≤ dayStart D)
        rw [(hT t ht).2 c hc, hD]

/-- Witness for the amended C5 on a concrete day-aligned forest. -/
theorem sums_day_granularity_when_aligned_witness :
    completedSum demoAlignedC5 msPerDay = specCompletedSumDay demoAlignedC5 msPerDay ∧
    dueSum demoAlignedC5 msPerDay = specDueSumDay demoAlignedC5 msPerDay :=
  sums_day_granularity_when_aligned demoAlignedC5 msPerDay (by norm_num [dayStart, msPerDay])
    (by
      intro t ht
      simp only [demoAlignedC5, List.mem_singleton] at ht
      subst ht
      constructor <;> intro c hc <;>
        simp only [TaskNode.completedOnDay, TaskNode.dueOnDay, Option.some.injEq] at hc <;>
        subst hc <;> norm_num [dayStart, msPerDay])

/-- `reduce`-style folding of estimates equals the mapped sum. -/
theorem foldl_estimate_eq (l : List TaskNode) :
    ∀ a : ℚ, List.foldl (fun s t => s + t.estimate) a l = a + (l.map TaskNode.estimate).sum := by
  induction l with
  | nil => intro a; simp
  | cons t ts ih =>
      intro a
      simp only [List.foldl_cons, List.map_cons, List.sum_cons, ih]
      ring

/-- `estimateFold` as a mapped sum. -/
theorem estimateFold_eq_sum (l : List TaskNode) :
    estimateFold l = (l.map TaskNode.estimate).sum := by
  simpa [estimateFold] using foldl_estimate_eq l 0

/-- With nonnegative estimates, `completedSum` is monotone in the axis
date: a later date keeps at least the completed work of an earlier one. -/
theorem completedSum_mono (tasks : List TaskNode)
    (hest : ∀ t ∈ tasks, 0 ≤ t.estimate) (D1 D2 : JSDate) (h : D1 ≤ D2) :
    completedSum tasks D1 ≤ completedSum tasks D2 := by
  unfold completedSum
  rw [estimateFold_eq_sum, estimateFold_eq_sum]
  have hsub : List.Sublist (tasks.filter (completedLeFilter D1))
      (tasks.filter (completedLeFilter D2)) := by
    refine List.monotone_filter_right tasks ?_
    intro t htf
    unfold completedLeFilter at htf ⊢
    cases hc : t.completedOnDay with
    | none => rw [hc] at htf; exact absurd htf (by simp)
    | some c =>
        rw [hc] at htf
        simp only [decide_eq_true_eq] at htf ⊢
        linarith
  refine List.Sublist.sum_le_sum (hsub.map TaskNode.estimate) ?_
  intro x hx
  simp only [List.mem_map] at hx
  obtain ⟨t, htf, hxe⟩ := hx
  rw [← hxe]
  exact hest t (List.mem_of_mem_filter htf)

/-- Rounding is monotone. -/
theorem roundQ_mono {a b : ℚ} (h : a ≤ b) : JNum.roundQ a ≤ JNum.roundQ b :=
  Int.floor_le_floor (by linarith)

/-- The `actual` field of a chart point, in closed finite form (for any
per-day rate). -/
theorem chartPointAt_actual (total : ℚ) (ipd : JNum) (tasks : List TaskNode)
    (d : Nat) (D : JSDate) :
    (chartPointAt total ipd tasks d D).actual =
      JNum.fin ((JNum.roundQ ((if total - completedSum tasks D ≤ 0 then 0
        else total - completedSum tasks D) * 100) : ℚ) / 100) := by
  simp [chartPointAt, JNum.sub, JNum.max, round2_fin_eq]

/-- Indexing the projector's loop output. -/
theorem buildPoints_getElem (total : ℚ) (ipd : JNum) (tasks : List TaskNode) :
    ∀ (ds : List JSDate) (d k : Nat),
      (buildPoints total ipd tasks d ds)[k]? =
        ds[k]?.map (fun D => chartPointAt total ipd tasks (d + k) D) := by
  intro ds
  induction ds with
  | nil => intro d k; simp [buildPoints]
  | cons D rest ih =>
      intro d k
      cases k with
      | zero => simp [buildPoints]
      | succ k =>
          simp only [buildPoints, List.getElem?_cons_succ, ih (d + 1) k]
          have : d + 1 + k = d + (k + 1) := by omega
          rw [this]

/-- C7: with a strictly ascending date axis and (per the data model)
nonnegative estimates, the `actual` series of `buildBurndownData` is
non-increasing in the axis index. -/
theorem actual_series_non_increasing (dates : List JSDate) (tasks : List TaskNode)
    (hsorted : dates.Pairwise (· < ·)) (hest : ∀ t ∈ tasks, 0 ≤ t.estimate)
    (i j : Nat) (hij : i ≤ j) (cpI cpJ : ChartPoint)
    (hI : (buildBurndownData dates tasks)[i]? = some cpI)
    (hJ : (buildBurndownData dates tasks)[j]? = some cpJ) :
    JNum.jle cpJ.actual cpI.actual = true := by
  simp only [buildBurndownData, buildPoints_getElem, Nat.zero_add] at hI hJ
  cases hDi : dates[i]? with
  | none => rw [hDi] at hI; exact absurd hI (by simp)
  | some Di =>
      cases hDj : dates[j]? with
      | none => rw [hDj] at hJ; exact absurd hJ (by simp)
      | some Dj =>
          rw [hDi] at hI
          rw [hDj] at hJ
          simp only [Option.map_some', Option.some.injEq] at hI hJ
          have hDle : Di ≤ Dj := by
            rcases Nat.lt_or_ge i j with hlt | hge
            · obtain ⟨hi, hgi⟩ := List.getElem?_eq_some.mp hDi
              obtain ⟨hj, hgj⟩ := List.getElem?_eq_some.mp hDj
              have := List.pairwise_iff_get.mp hsorted ⟨i, hi⟩ ⟨j, hj⟩ hlt
              simp only [List.get_eq_getElem, hgi, hgj] at this
              exact le_of_lt this
            · have hii : i = j := by omega
              subst hii
              rw [hDi] at hDj
              injection hDj with hd
              rw [hd]
          rw [← hI, ← hJ, chartPointAt_actual, chartPointAt_actual]
          simp only [JNum.jle, decide_eq_true_eq]
          set total := totalEstimate tasks with htotal
          set a := completedSum tasks Di with ha
          set b := completedSum tasks Dj with hb
          have hab : a ≤ b := completedSum_mono tasks hest Di Dj hDle
          have h1 : (if total - b ≤ 0 then (0:ℚ) else total - b) ≤
              (if total - a ≤ 0 then (0:ℚ) else total - a) := by
            rcases le_or_lt (total - b) 0 with hb0 | hb0 <;>
              rcases le_or_lt (total - a) 0 with ha0 | ha0
            · rw [if_pos hb0, if_pos ha0]
            · rw [if_pos hb0, if_neg (not_le.mpr ha0)]
              linarith
            · rw [if_neg (not_le.mpr hb0), if_pos ha0]
              linarith
            · rw [if_neg (not_le.mpr hb0), if_neg (not_le.mpr ha0)]
              linarith
          have h2 : JNum.roundQ ((if total - b ≤ 0 then (0:ℚ) else total - b) * 100) ≤
              JNum.roundQ ((if total - a ≤ 0 then (0:ℚ) else total - a) * 100) :=
            roundQ_mono (by nlinarith)
          have h3 : ((JNum.roundQ ((if total - b ≤ 0 then (0:ℚ) else total - b) * 100) : ℚ)) ≤
              ((JNum.roundQ ((if total - a ≤ 0 then (0:ℚ) else total - a) * 100) : ℚ)) := by
            exact_mod_cast h2
          exact (div_le_div_iff_of_pos_right (by norm_num)).mpr h3

/-- Witness for C7 on a concrete two-date axis. -/
theorem actual_series_non_increasing_witness :
    JNum.jle (ChartPoint.mk msPerDay (JNum.fin 0) (JNum.fin 0) (JNum.fin 0)).actual
      (ChartPoint.mk 0 (JNum.fin 0) (JNum.fin 0) (JNum.fin 0)).actual = true :=
  actual_series_non_increasing [0, msPerDay] [] (by decide) (by simp) 0 1 (by omega)
    (ChartPoint.mk 0 (JNum.fin 0) (JNum.fin 0) (JNum.fin 0))
    (ChartPoint.mk msPerDay (JNum.fin 0) (JNum.fin 0) (JNum.fin 0))
    (by norm_num [buildBurndownData, buildPoints, chartPointAt, totalEstimate,
      estimateFold, completedSum, dueSum, completedLeFilter, dueLeFilter,
      JNum.div, JNum.mul, JNum.sub, JNum.max, JNum.round2, JNum.jround, JNum.roundQ])
    (by norm_num [buildBurndownData, buildPoints, chartPointAt, totalEstimate,
      estimateFold, completedSum, dueSum, completedLeFilter, dueLeFilter,
      JNum.div, JNum.mul, JNum.sub, JNum.max, JNum.round2, JNum.jround, JNum.roundQ])

/-- C9 counterexample: an unparseable stored snapshot (here `"\x7b"`) makes the
load effect propagate the `JSON.parse` error — there is no `try`/`catch` —
instead of producing the empty forest the claim requires. -/
theorem corrupt_snapshot_crashes_load :
    loadTasks (some "\x7b") = Except.error "expected object key" ∧
    (Except.error "expected object key" : Except String (List TaskNode)) ≠ Except.ok [] := by
  constructor
  · simp [loadTasks, jsonParse, parseJsonValue, parseObjFields, skipWs, isJsonWs]
  · intro h
    exact Except.noConfusion h

/-- C9 (amended): when no snapshot is stored the forest stays empty, but a
stored snapshot that `JSON.parse` rejects propagates that parse error out of
the load path (the component state merely remains whatever it was — there is
no handled fallback to an empty forest). -/
theorem corrupt_snapshot_error_propagates (s e : String)
    (h : jsonParse s = Except.error e) :
    loadTasks (some s) = Except.error e ∧ loadTasks none = Except.ok [] := by
  constructor
  · simp only [loadTasks, h]
  · rfl

/-- Witness for the amended C9 at the concrete snapshot `"\x7b"`. -/
theorem corrupt_snapshot_error_propagates_witness :
    loadTasks (some "\x7b") = Except.error "expected object key" ∧
    loadTasks none = Except.ok [] :=
  corrupt_snapshot_error_propagates "\x7b" "expected object key"
    (by simp [jsonParse, parseJsonValue, parseObjFields, skipWs, isJsonWs])

/-- `frameRel` is reflexive. -/
theorem frameRel_refl (taskId : Nat) (t : TaskNode) : frameRel taskId t t :=
  ⟨rfl, fun _ => ⟨rfl, rfl, rfl, rfl, rfl⟩, fun _ => rfl⟩

/-- The update recursion preserves the skeleton (shape, ids, and sibling
order) for any patch that preserves `id` and `children`. -/
theorem skelF_updF (taskId : Nat) (patch : TaskNode → TaskNode)
    (hp : ∀ t, (patch t).id = t.id ∧ (patch t).children = t.children) :
    (ts : List TaskNode) → skelF (updF taskId patch ts) = skelF ts
  | [] => by simp [updF]
  | TaskNode.mk i n e p cs c d :: ts => by
      have ih2 := skelF_updF taskId patch hp ts
      simp only [updF]
      by_cases hid : i = taskId
      · rw [if_pos hid]
        obtain ⟨hpi, hpc⟩ := hp (TaskNode.mk i n e p cs c d)
        cases hpx : patch (TaskNode.mk i n e p cs c d) with
        | mk i2 n2 e2 p2 cs2 c2 d2 =>
            rw [hpx] at hpi hpc
            simp only [TaskNode.id, TaskNode.children] at hpi hpc
            simp only [skelF, hpi, hpc, ih2]
      · rw [if_neg hid]
        by_cases hl : cs.length > 0
        · rw [if_pos hl]
          have ih1 := skelF_updF taskId patch hp cs
          simp only [skelF, updF_length, ih1, ih2]
        · rw [if_neg hl]
          simp only [skelF, ih2]
termination_by ts => sizeOf ts
decreasing_by all_goals (simp only [List.cons.sizeOf_spec, TaskNode.mk.sizeOf_spec]; omega)

/-- Every node keeps its position, its id, and (when it is not the target)
all its non-`children` fields under the update recursion; subtrees without
the target are unchanged. -/
theorem allNodesF_frame (taskId : Nat) (patch : TaskNode → TaskNode)
    (hp : ∀ t, (patch t).id = t.id ∧ (patch t).children = t.children) :
    (ts : List TaskNode) →
      List.Forall₂ (frameRel taskId) (allNodesF ts) (allNodesF (updF taskId patch ts))
  | [] => by simp [updF, allNodesF]
  | TaskNode.mk i n e p cs c d :: ts => by
      have ih2 := allNodesF_frame taskId patch hp ts
      simp only [updF]
      by_cases hid : i = taskId
      · rw [if_pos hid]
        obtain ⟨hpi, hpc⟩ := hp (TaskNode.mk i n e p cs c d)
        cases hpx : patch (TaskNode.mk i n e p cs c d) with
        | mk i2 n2 e2 p2 cs2 c2 d2 =>
            rw [hpx] at hpi hpc
            simp only [TaskNode.id, TaskNode.children] at hpi hpc
            simp only [allNodesF]
            refine List.Forall₂.cons ?_ (List.rel_append ?_ ih2)
            · refine ⟨by simp [TaskNode.id, hpi], fun hne => absurd hid hne, fun hfa => ?_⟩
              exfalso
              simp [hasIdF, hid] at hfa
            · rw [hpc]
              exact List.forall₂_same.mpr (fun x _ => frameRel_refl taskId x)
      · rw [if_neg hid]
        by_cases hl : cs.length > 0
        · rw [if_pos hl]
          have ih1 := allNodesF_frame taskId patch hp cs
          simp only [allNodesF]
          refine List.Forall₂.cons ?_ (List.rel_append ih1 ih2)
          refine ⟨rfl, fun _ => ⟨rfl, rfl, rfl, rfl, rfl⟩, fun hfa => ?_⟩
          simp only [hasIdF, Bool.or_eq_false_iff, beq_eq_false_iff_ne] at hfa
          rw [updF_not_found taskId patch cs hfa.1.2]
        · rw [if_neg hl]
          simp only [allNodesF]
          exact List.Forall₂.cons (frameRel_refl taskId _) (List.rel_append
            (List.forall₂_same.mpr (fun x _ => frameRel_refl taskId x)) ih2)
termination_by ts => sizeOf ts
decreasing_by all_goals (simp only [List.cons.sizeOf_spec, TaskNode.mk.sizeOf_spec]; omega)

/-- Deleting a node keeps the remaining nodes' depth-first id sequence a
sublist of the original: every surviving node keeps its relative order. -/
theorem allIdsF_removeTask_sublist (taskId : Nat) :
    (ts : List TaskNode) → List.Sublist (allIdsF (removeTask taskId ts)) (allIdsF ts)
  | [] => by simp [removeTask, allIdsF]
  | TaskNode.mk i n e p cs c d :: ts => by
      have ih2 := allIdsF_removeTask_sublist taskId ts
      simp only [removeTask, allIdsF]
      by_cases hid : i = taskId
      · rw [if_pos hid]
        exact ih2.trans ((List.sublist_append_right _ _).trans (List.Sublist.refl _))
      · rw [if_neg hid]
        by_cases hl : cs.length > 0
        · rw [if_pos hl]
          have ih1 := allIdsF_removeTask_sublist taskId cs
          simp only [allIdsF]
          exact List.Sublist.append (List.Sublist.cons₂ i ih1) ih2
        · rw [if_neg hl]
          simp only [allIdsF]
          exact List.Sublist.append (List.Sublist.refl _) ih2
termination_by ts => sizeOf ts
decreasing_by all_goals (simp only [List.cons.sizeOf_spec, TaskNode.mk.sizeOf_spec]; omega)

/-- C10 (amended): each single-field update preserves the forest skeleton
(shape, ids, sibling order) and relates every node at its depth-first
position to the original by `frameRel` — same id; all fields except
`children` unchanged whenever the node's id differs from the target; the
whole node unchanged whenever its subtree does not contain the target (only
the target node and its ancestors' `children` chains are rebuilt).
`deleteTask` keeps the depth-first id sequence of the remaining nodes a
sublist of the original, preserving relative order at every level. -/
theorem update_delete_frame (taskId : Nat) (ts : List TaskNode)
    (day day2 : Option JSDate) (est : ℚ) :
    skelF (updateCompletedDay taskId day ts) = skelF ts ∧
    skelF (updateDueDay taskId day2 ts) = skelF ts ∧
    skelF (updateEstimate taskId est ts) = skelF ts ∧
    List.Forall₂ (frameRel taskId) (allNodesF ts)
      (allNodesF (updateCompletedDay taskId day ts)) ∧
    List.Forall₂ (frameRel taskId) (allNodesF ts)
      (allNodesF (updateDueDay taskId day2 ts)) ∧
    List.Forall₂ (frameRel taskId) (allNodesF ts)
      (allNodesF (updateEstimate taskId est ts)) ∧
    List.Sublist (allIdsF (deleteTask taskId ts)) (allIdsF ts) :=
  ⟨skelF_updF taskId _ (fun t => by cases t; exact ⟨rfl, rfl⟩) ts,
   skelF_updF taskId _ (fun t => by cases t; exact ⟨rfl, rfl⟩) ts,
   skelF_updF taskId _ (fun t => by cases t; exact ⟨rfl, rfl⟩) ts,
   allNodesF_frame taskId _ (fun t => by cases t; exact ⟨rfl, rfl⟩) ts,
   allNodesF_frame taskId _ (fun t => by cases t; exact ⟨rfl, rfl⟩) ts,
   allNodesF_frame taskId _ (fun t => by cases t; exact ⟨rfl, rfl⟩) ts,
   allIdsF_removeTask_sublist taskId ts⟩

/-- C10 counterexample: updating the completion date of node 2 rebuilds its
ancestor (node 1, whose id differs from the target), so that ancestor is
not deep-equal to its original — its `children` field has changed. -/
theorem update_changes_nontarget_ancestor :
    (getPath (updateCompletedDay 2 (some 0) demoForestC10) [0]).map TaskNode.id = some 1 ∧
    getPath (updateCompletedDay 2 (some 0) demoForestC10) [0] ≠ getPath demoForestC10 [0] := by
  constructor
  · simp [updateCompletedDay, updF, setCompleted, demoForestC10, getPath, TaskNode.id]
  · simp [updateCompletedDay, updF, setCompleted, demoForestC10, getPath]

/-- `hasIdF` decides membership in the depth-first id list. -/
theorem mem_allIdsF_iff (x : Nat) :
    (ts : List TaskNode) → (x ∈ allIdsF ts ↔ hasIdF x ts = true)
  | [] => by simp [allIdsF, hasIdF]
  | TaskNode.mk i n e p cs c d :: ts => by
      have ih1 := mem_allIdsF_iff x cs
      have ih2 := mem_allIdsF_iff x ts
      simp only [allIdsF, hasIdF, List.cons_append, List.mem_cons, List.mem_append,
        Bool.or_eq_true, beq_iff_eq, ih1, ih2]
      constructor
      · rintro (h | h | h)
        · exact Or.inl (Or.inl h.symm)
        · exact Or.inl (Or.inr h)
        · exact Or.inr h
      · rintro ((h | h) | h)
        · exact Or.inl h.symm
        · exact Or.inr (Or.inl h)
        · exact Or.inr (Or.inr h)
termination_by ts => sizeOf ts
decreasing_by all_goals (simp only [List.cons.sizeOf_spec, TaskNode.mk.sizeOf_spec]; omega)

/-- `allIdsF` distributes over append. -/
theorem allIdsF_append : (xs ys : List TaskNode) →
    allIdsF (xs ++ ys) = allIdsF xs ++ allIdsF ys
  | [], ys => by simp [allIdsF]
  | TaskNode.mk i n e p cs c d :: xs, ys => by
      simp only [List.cons_append, allIdsF, allIdsF_append xs ys, List.append_assoc]
termination_by xs _ => sizeOf xs
decreasing_by all_goals (simp only [List.cons.sizeOf_spec, TaskNode.mk.sizeOf_spec]; omega)

/-- The depth-first id list is the first projection of the skeleton. -/
theorem allIdsF_eq_skel_fst :
    (ts : List TaskNode) → allIdsF ts = (skelF ts).map Prod.fst
  | [] => by simp [allIdsF, skelF]
  | TaskNode.mk i n e p cs c d :: ts => by
      simp only [allIdsF, skelF, List.map_cons, List.map_append, List.cons_append,
        allIdsF_eq_skel_fst cs, allIdsF_eq_skel_fst ts]
termination_by ts => sizeOf ts
decreasing_by all_goals (simp only [List.cons.sizeOf_spec, TaskNode.mk.sizeOf_spec]; omega)

/-- Inserting a child under an existing parent permutes the id list to the
original ids plus the new subtree's ids (assuming globally unique ids, so
there is exactly one insertion point). -/
theorem allIdsF_addChild_perm (p : Nat) (nt : TaskNode) :
    (ts : List TaskNode) → (allIdsF ts).Nodup → hasIdF p ts = true →
      (allIdsF (addChild p nt ts)).Perm (allIdsF ts ++ allIdsF [nt])
  | [], _, hfound => by simp [hasIdF] at hfound
  | TaskNode.mk i n e pid cs c d :: ts, hnd, hfound => by
      simp only [allIdsF, List.cons_append] at hnd
      rw [List.nodup_cons] at hnd
      obtain ⟨hi_notmem, hnd'⟩ := hnd
      rw [List.nodup_append] at hnd'
      obtain ⟨hndcs, hndts, hdisj⟩ := hnd'
      simp only [addChild]
      by_cases hid : i = p
      · rw [if_pos hid]
        have hpnotts : hasIdF p ts = false := by
          rw [← Bool.not_eq_true, ← mem_allIdsF_iff]
          intro hmem
          exact (hid ▸ hi_notmem) (List.mem_append.mpr (Or.inr hmem))
        rw [addChild_not_found p nt ts hpnotts]
        simp only [allIdsF, allIdsF_append, List.cons_append]
        refine List.Perm.cons i ?_
        rw [List.append_assoc, List.append_assoc]
        exact List.Perm.append_left _ (List.perm_append_comm)
      · rw [if_neg hid]
        by_cases hcs : hasIdF p cs = true
        · have hlen : cs.length > 0 := by
            cases cs with
            | nil => simp [hasIdF] at hcs
            | cons a as => simp
          rw [if_pos hlen]
          have hpnotts : hasIdF p ts = false := by
            rw [← Bool.not_eq_true, ← mem_allIdsF_iff]
            intro hmem
            exact hdisj ((mem_allIdsF_iff p cs).mpr hcs) hmem
          rw [addChild_not_found p nt ts hpnotts]
          have ih := allIdsF_addChild_perm p nt cs hndcs hcs
          simp only [allIdsF, List.cons_append]
          refine List.Perm.cons i ?_
          refine (ih.append_right (allIdsF ts)).trans ?_
          rw [List.append_assoc, List.append_assoc]
          exact List.Perm.append_left _ List.perm_append_comm
        · have hts : hasIdF p ts = true := by
            simp only [hasIdF, Bool.or_eq_true, beq_iff_eq] at hfound
            rcases hfound with (h | h) | h
            · exact absurd h hid
            · exact absurd h hcs
            · exact h
          have ih := allIdsF_addChild_perm p nt ts hndts hts
          have hcsf : hasIdF p cs = false := by simpa using hcs
          have hcsid : addChild p nt cs = cs := addChild_not_found p nt cs hcsf
          have hhead : (if cs.length > 0 then TaskNode.mk i n e pid (addChild p nt cs) c d
              else TaskNode.mk i n e pid cs c d) = TaskNode.mk i n e pid cs c d := by
            rw [hcsid]
            split <;> rfl
          rw [hhead]
          simp only [allIdsF, List.cons_append, List.append_assoc]
          exact List.Perm.cons i (List.Perm.append_left _ ih)
termination_by ts => sizeOf ts
decreasing_by all_goals (simp only [List.cons.sizeOf_spec, TaskNode.mk.sizeOf_spec]; omega)

/-- Globally unique ids imply that no node's id recurs among its
descendants: no node is its own ancestor. -/
theorem nodup_noSelfAncestorF :
    (ts : List TaskNode) → (allIdsF ts).Nodup → noSelfAncestorF ts = true
  | [], _ => by simp [noSelfAncestorF]
  | TaskNode.mk i n e p cs c d :: ts, hnd => by
      simp only [allIdsF, List.cons_append, List.nodup_cons, List.nodup_append] at hnd
      obtain ⟨hi, hcs, hts, hdisj⟩ := hnd
      have ih1 := nodup_noSelfAncestorF cs hcs
      have ih2 := nodup_noSelfAncestorF ts hts
      have hmem : i ∉ allIdsF cs := fun hm => hi (List.mem_append.mpr (Or.inl hm))
      simp only [noSelfAncestorF, ih1, ih2, Bool.and_true]
      simpa using hmem
termination_by ts => sizeOf ts
decreasing_by all_goals (simp only [List.cons.sizeOf_spec, TaskNode.mk.sizeOf_spec]; omega)

/-- Each command preserves the store invariant. -/
theorem execCmd_inv (s : Store) (c : Cmd) (h : StoreInv s) : StoreInv (execCmd s c) := by
  obtain ⟨hnd, hlt⟩ := h
  have hupd : ∀ (patch : TaskNode → TaskNode),
      (∀ t, (patch t).id = t.id ∧ (patch t).children = t.children) →
      allIdsF (updF (match c with
        | Cmd.updCompleted i _ => i
        | Cmd.updDue i _ => i
        | Cmd.updEstimate i _ => i
        | _ => 0) patch s.tasks) = allIdsF s.tasks := by
    intro patch hp
    rw [allIdsF_eq_skel_fst, allIdsF_eq_skel_fst, skelF_updF _ patch hp]
  cases c with
  | add nm est pid due =>
      simp only [execCmd]
      by_cases hnm : nm = ""
      · rw [if_pos hnm]
        exact ⟨hnd, hlt⟩
      · rw [if_neg hnm]
        cases due with
        | none => exact ⟨hnd, hlt⟩
        | some dd =>
            have hntids : allIdsF [TaskNode.mk s.clock nm est pid [] none (some dd)] =
                [s.clock] := by simp [allIdsF]
            change StoreInv ⟨insertChild pid
              (TaskNode.mk s.clock nm est pid [] none (some dd)) s.tasks, s.clock + 1⟩
            unfold insertChild
            by_cases htr : jsTruthyId pid = true
            · rw [if_pos htr]
              by_cases hfound : hasIdF (pid.getD 0) s.tasks = true
              · have hperm := allIdsF_addChild_perm (pid.getD 0)
                  (TaskNode.mk s.clock nm est pid [] none (some dd)) s.tasks hnd hfound
                rw [hntids] at hperm
                have htarget : (allIdsF s.tasks ++ [s.clock]).Nodup := by
                  rw [List.nodup_append]
                  refine ⟨hnd, List.nodup_singleton _, ?_⟩
                  intro x hx hxs
                  simp only [List.mem_singleton] at hxs
                  subst hxs
                  exact absurd (hlt _ hx) (lt_irrefl _)
                refine ⟨hperm.nodup_iff.mpr htarget, ?_⟩
                intro x hx
                have hx2 := hperm.mem_iff.mp hx
                simp only [List.mem_append, List.mem_singleton] at hx2
                rcases hx2 with hx2 | hx2
                · exact Nat.lt_succ_of_lt (hlt x hx2)
                · subst hx2
                  exact Nat.lt_succ_self _
              · rw [addChild_not_found _ _ s.tasks (by simpa using hfound)]
                exact ⟨hnd, fun x hx => Nat.lt_succ_of_lt (hlt x hx)⟩
            · rw [if_neg htr]
              have hids : allIdsF (s.tasks ++
                  [TaskNode.mk s.clock nm est pid [] none (some dd)]) =
                  allIdsF s.tasks ++ [s.clock] := by
                rw [allIdsF_append, hntids]
              refine ⟨?_, ?_⟩
              · show (allIdsF (s.tasks ++
                  [TaskNode.mk s.clock nm est pid [] none (some dd)])).Nodup
                rw [hids, List.nodup_append]
                refine ⟨hnd, List.nodup_singleton _, ?_⟩
                intro x hx hxs
                simp only [List.mem_singleton] at hxs
                subst hxs
                exact absurd (hlt _ hx) (lt_irrefl _)
              · show ∀ x ∈ allIdsF (s.tasks ++
                  [TaskNode.mk s.clock nm est pid [] none (some dd)]), x < s.clock + 1
                intro x hx
                rw [hids] at hx
                simp only [List.mem_append, List.mem_singleton] at hx
                rcases hx with hx | hx
                · exact Nat.lt_succ_of_lt (hlt x hx)
                · subst hx
                  exact Nat.lt_succ_self _
  | updCompleted i day =>
      have heq := hupd (setCompleted day) (fun t => by cases t; exact ⟨rfl, rfl⟩)
      simp only [execCmd, updateCompletedDay]
      exact ⟨heq ▸ hnd, fun x hx => hlt x (heq ▸ hx)⟩
  | updDue i day =>
      have heq := hupd (setDue day) (fun t => by cases t; exact ⟨rfl, rfl⟩)
      simp only [execCmd, updateDueDay]
      exact ⟨heq ▸ hnd, fun x hx => hlt x (heq ▸ hx)⟩
  | updEstimate i est =>
      have heq := hupd (setEstimate est) (fun t => by cases t; exact ⟨rfl, rfl⟩)
      simp only [execCmd, updateEstimate]
      exact ⟨heq ▸ hnd, fun x hx => hlt x (heq ▸ hx)⟩
  | del i =>
      have hsub := allIdsF_removeTask_sublist i s.tasks
      simp only [execCmd, deleteTask]
      exact ⟨hnd.sublist hsub, fun x hx => hlt x (hsub.mem hx)⟩

/-- Every command sequence preserves the store invariant. -/
theorem execCmds_inv (cmds : List Cmd) :
    ∀ (s : Store), StoreInv s → StoreInv (execCmds s cmds) := by
  induction cmds with
  | nil => intro s h; simpa [execCmds] using h
  | cons c rest ih =>
      intro s h
      have := ih (execCmd s c) (execCmd_inv s c h)
      simpa [execCmds] using this

/-- C2: for any sequence of add/update/delete commands applied to a forest
with globally unique node ids (all generated before the session clock, as
the monotonic time-based `Date.now()` generator guarantees), every node id
stays unique across the whole forest and no node ever becomes its own
ancestor. -/
theorem tree_invariant_preserved (cmds : List Cmd) (ts : List TaskNode) (clock : Nat)
    (h1 : (allIdsF ts).Nodup) (h2 : ∀ x ∈ allIdsF ts, x < clock) :
    (allIdsF (execCmds ⟨ts, clock⟩ cmds).tasks).Nodup ∧
    noSelfAncestorF (execCmds ⟨ts, clock⟩ cmds).tasks = true := by
  have h := execCmds_inv cmds ⟨ts, clock⟩ ⟨h1, h2⟩
  exact ⟨h.1, nodup_noSelfAncestorF _ h.1⟩

/-- Witness for C2: a concrete command run (a nested add, field updates, a
delete and a root add) from the demo forest. -/
theorem tree_invariant_preserved_witness :
    (allIdsF (execCmds ⟨demoForestC6, 9⟩
      [Cmd.add "a" 1 (some 1) (some 0), Cmd.updCompleted 2 (some 5),
       Cmd.del 1, Cmd.add "b" 2 none (some 0)]).tasks).Nodup ∧
    noSelfAncestorF (execCmds ⟨demoForestC6, 9⟩
      [Cmd.add "a" 1 (some 1) (some 0), Cmd.updCompleted 2 (some 5),
       Cmd.del 1, Cmd.add "b" 2 none (some 0)]).tasks = true :=
  tree_invariant_preserved _ demoForestC6 9
    (by simp [allIdsF, demoForestC6])
    (by
      intro x hx
      simp [allIdsF, demoForestC6] at hx
      rcases hx with hx | hx <;> omega)
